import Mathlib

/-!
Shallow embedding of `solutions/object_oriented_design/call_center/call_center.py`.

Python objects are modelled by records; object references (`Call.employee`,
`Employee.call`) become `Option Nat` indices into the `CallCenter`'s object
lists, so that the mutable heap is one explicit `CallCenter` state threaded
through every operation.  The `call_center` back-reference each `Employee`
carries in Python is represented by the operations taking the whole state.
Exceptions (`ValueError`, `NotImplementedError`, the `AttributeError` raised
by dereferencing `None`) become `Except String`.
-/

namespace CallCenterModel

/-- Enum `Rank`: OPERATOR = 0, SUPERVISOR = 1, DIRECTOR = 2. -/
inductive Rank where
  | OPERATOR
  | SUPERVISOR
  | DIRECTOR
  deriving DecidableEq, Repr

/-- Numeric value of a rank, as in the Python `Enum`. -/
def Rank.val : Rank → Nat
  | .OPERATOR => 0
  | .SUPERVISOR => 1
  | .DIRECTOR => 2

/-- Enum `CallState`: READY = 0, IN_PROGRESS = 1, COMPLETE = 2. -/
inductive CallState where
  | READY
  | IN_PROGRESS
  | COMPLETE
  deriving DecidableEq, Repr

/-- Python `Call.__init__`: state READY, given rank, no employee. -/
structure Call where
  state : CallState
  rank : Rank
  employee : Option Nat
  deriving DecidableEq, Repr

/-- A fresh call of the given rank (`Call.__init__`). -/
def Call.mk0 (r : Rank) : Call :=
  { state := CallState.READY, rank := r, employee := none }

/-- Data of the `Employee` base class: id, name, fixed rank, optional current call.
The Python `name : str` field is inert for the dispatch logic and kept as a
`String`; `call_center` is the threaded state. -/
structure Employee where
  employee_id : Nat
  name : String
  rank : Rank
  call : Option Nat
  deriving DecidableEq, Repr

/-- Python `CallCenter.__init__`: the three rank pools (as indices into `employees`,
in registration order), the employee objects, the call objects, and the FIFO
`queued_calls` deque (call indices). -/
structure CallCenter where
  operators : List Nat
  supervisors : List Nat
  directors : List Nat
  employees : List Employee
  calls : List Call
  queued_calls : List Nat
  deriving DecidableEq, Repr

/-- Update employee object `i` in place (no-op on a dangling index). -/
def updEmp (es : List Employee) (i : Nat) (f : Employee → Employee) : List Employee :=
  match es[i]? with
  | some e => es.set i (f e)
  | none => es

/-- Update call object `i` in place (no-op on a dangling index). -/
def updCall (cs : List Call) (i : Nat) (f : Call → Call) : List Call :=
  match cs[i]? with
  | some c => cs.set i (f c)
  | none => cs

/-- Python `Employee.take_call`: `self.call = call; call.employee = self;
call.state = IN_PROGRESS`.  The Python method performs no precondition
check whatsoever. -/
def takeCall (s : CallCenter) (eid cid : Nat) : CallCenter :=
  { s with
    employees := updEmp s.employees eid (fun e => { e with call := some cid })
    calls := updCall s.calls cid (fun c => { c with employee := some eid, state := CallState.IN_PROGRESS }) }

/-- The `employee.call is None` test used by `_dispatch_to_available`; a dangling
index is never free (in Python it would not occur). -/
def empFree (s : CallCenter) (eid : Nat) : Bool :=
  match s.employees[eid]? with
  | some e => e.call.isNone
  | none => false

/-- Python `CallCenter._dispatch_to_available`: scan `pool` in order, give the call
to the first employee whose `call` is `None` and return it, else `None`. -/
def dispatchToAvailable (s : CallCenter) (cid : Nat) (pool : List Nat) :
    Option Nat × CallCenter :=
  match pool with
  | [] => (none, s)
  | e :: rest =>
    if empFree s e then (some e, takeCall s e cid)
    else dispatchToAvailable s cid rest

/-- Python `CallCenter._dispatch_call_based_on_rank`: OPERATOR calls try operators;
SUPERVISOR calls try supervisors `or` operators; DIRECTOR calls try directors
`or` supervisors `or` operators (Python's `or` keeps the first truthy result;
a `None` result leaves the state untouched, so chaining on the intermediate
state is faithful). -/
def dispatchCallBasedOnRank (s : CallCenter) (cid : Nat) : Option Nat × CallCenter :=
  match s.calls[cid]? with
  | none => (none, s)
  | some c =>
    match c.rank with
    | Rank.OPERATOR => dispatchToAvailable s cid s.operators
    | Rank.SUPERVISOR =>
      match dispatchToAvailable s cid s.supervisors with
      | (some e, s1) => (some e, s1)
      | (none, s1) => dispatchToAvailable s1 cid s1.operators
    | Rank.DIRECTOR =>
      match dispatchToAvailable s cid s.directors with
      | (some e, s1) => (some e, s1)
      | (none, s1) =>
        match dispatchToAvailable s1 cid s1.supervisors with
        | (some e, s2) => (some e, s2)
        | (none, s2) => dispatchToAvailable s2 cid s2.operators

/-- Python `CallCenter.notify_call_escalated`: the body is `pass`. -/
def notifyCallEscalated (s : CallCenter) (_cid : Nat) : CallCenter := s

/-- Python `CallCenter.notify_call_completed`: the body is `pass`. -/
def notifyCallCompleted (s : CallCenter) (_cid : Nat) : CallCenter := s

/-- Python `CallCenter.dispatch_call`: the rank-membership guard
`call.rank not in (OPERATOR, SUPERVISOR, DIRECTOR)` can never fire for a
well-typed `Rank`, mirroring that every `Rank` value is one of the three;
then route, and append to `queued_calls` when no employee was found. -/
def dispatchCall (s : CallCenter) (cid : Nat) : CallCenter :=
  match dispatchCallBasedOnRank s cid with
  | (some _, s1) => s1
  | (none, s1) => { s1 with queued_calls := s1.queued_calls ++ [cid] }

/-- Python `Employee.complete_call`: `self.call.state = COMPLETE` then
`notify_call_completed`.  When `self.call` is `None` the first statement
raises `AttributeError` before any mutation.  The employee's `call` slot is
not cleared. -/
def completeCall (s : CallCenter) (eid : Nat) : Except String CallCenter :=
  match s.employees[eid]? with
  | none => Except.error "IndexError: no such employee"
  | some emp =>
    match emp.call with
    | none => Except.error "AttributeError: NoneType has no attribute state"
    | some cid =>
      let s1 :=
        { s with calls := updCall s.calls cid (fun c => { c with state := CallState.COMPLETE }) }
      Except.ok (notifyCallCompleted s1 cid)

/-- The tier written into the call by `Operator.escalate_call` /
`Supervisor.escalate_call`: one step above the escalating employee's own
rank (DIRECTOR never reaches this, it raises first). -/
def nextRank : Rank → Rank
  | Rank.OPERATOR => Rank.SUPERVISOR
  | Rank.SUPERVISOR => Rank.DIRECTOR
  | Rank.DIRECTOR => Rank.DIRECTOR

/-- Body shared by `Operator.escalate_call` and `Supervisor.escalate_call`:
`self.call.rank = newRank` (an `AttributeError` if `self.call` is `None`),
then `Employee._escalate_call` sets `call.state = READY`, clears `self.call`
(but not `call.employee`) and calls the no-op `notify_call_escalated`. -/
def escalateWith (s : CallCenter) (eid : Nat) (emp : Employee) (newRank : Rank) :
    Except String CallCenter :=
  match emp.call with
  | none => Except.error "AttributeError: NoneType has no attribute rank"
  | some cid =>
    let s1 :=
      { s with
        calls := updCall s.calls cid (fun c => { c with rank := newRank, state := CallState.READY })
        employees := updEmp s.employees eid (fun e => { e with call := none }) }
    Except.ok (notifyCallEscalated s1 cid)

/-- Python `escalate_call`, dynamic dispatch on the employee's rank:
an `Operator` raises the call to SUPERVISOR, a `Supervisor` to DIRECTOR,
and `Director.escalate_call` raises `NotImplementedError` before touching
any state. -/
def escalateCall (s : CallCenter) (eid : Nat) : Except String CallCenter :=
  match s.employees[eid]? with
  | none => Except.error "IndexError: no such employee"
  | some emp =>
    match emp.rank with
    | Rank.OPERATOR => escalateWith s eid emp Rank.SUPERVISOR
    | Rank.SUPERVISOR => escalateWith s eid emp Rank.DIRECTOR
    | Rank.DIRECTOR =>
      Except.error "NotImplementedError: Directors must be able to handle any call"

/-- Public events driving the system: submitting a fresh call of a rank to
`dispatch_call`, an employee completing, an employee escalating. -/
inductive Event where
  | submit (r : Rank)
  | complete (eid : Nat)
  | escalate (eid : Nat)
  deriving DecidableEq, Repr

/-- One public operation.  A raised exception propagates to the caller with
the state unchanged (in the source every raise happens before any mutation). -/
def step (s : CallCenter) : Event → CallCenter
  | Event.submit r =>
    let cid := s.calls.length
    dispatchCall { s with calls := s.calls ++ [Call.mk0 r] } cid
  | Event.complete eid =>
    match completeCall s eid with
    | Except.ok s1 => s1
    | Except.error _ => s
  | Event.escalate eid =>
    match escalateCall s eid with
    | Except.ok s1 => s1
    | Except.error _ => s

/-- Run a list of events from a state. -/
def run (s : CallCenter) : List Event → CallCenter
  | [] => s
  | e :: es => run (step s e) es

/-- A call center freshly constructed with `nOps` operators, `nSups`
supervisors and `nDirs` directors (registration order = list order), as in
`CallCenter.__init__` applied to freshly constructed employees. -/
def mkCenter (nOps nSups nDirs : Nat) : CallCenter :=
  { operators := List.range nOps
    supervisors := (List.range nSups).map (fun i => nOps + i)
    directors := (List.range nDirs).map (fun i => nOps + nSups + i)
    employees :=
      (List.range nOps).map (fun i => ⟨i, "op", Rank.OPERATOR, none⟩)
        ++ (List.range nSups).map (fun i => ⟨nOps + i, "sup", Rank.SUPERVISOR, none⟩)
        ++ (List.range nDirs).map (fun i => ⟨nOps + nSups + i, "dir", Rank.DIRECTOR, none⟩)
    calls := []
    queued_calls := [] }

/-- Observable attribute: rank of employee `e`. -/
def empRankAt (s : CallCenter) (e : Nat) : Option Rank :=
  (s.employees[e]?).map Employee.rank

/-- Observable attribute: current-call slot of employee `e`. -/
def empCallAt (s : CallCenter) (e : Nat) : Option (Option Nat) :=
  (s.employees[e]?).map Employee.call

/-- Observable attribute: state of call `c`. -/
def callStateAt (s : CallCenter) (c : Nat) : Option CallState :=
  (s.calls[c]?).map Call.state

/-- Observable attribute: rank of call `c`. -/
def callRankAt (s : CallCenter) (c : Nat) : Option Rank :=
  (s.calls[c]?).map Call.rank

/-- Observable attribute: `assignedEmployee` back-reference of call `c`. -/
def callEmpAt (s : CallCenter) (c : Nat) : Option (Option Nat) :=
  (s.calls[c]?).map Call.employee

/-- The sequence of pools `_dispatch_call_based_on_rank` actually scans for a
call of the given rank, stated from the spec's vocabulary for comparison with
the routing claim: the scan runs from the call's own tier DOWNWARD to the
operators, not upward. -/
def searchPools (s : CallCenter) : Rank → List Nat
  | Rank.OPERATOR => s.operators
  | Rank.SUPERVISOR => s.supervisors ++ s.operators
  | Rank.DIRECTOR => s.directors ++ s.supervisors ++ s.operators

/-- One-directional consistency that the code does maintain on every reachable
state: an IN_PROGRESS call's `employee` is set and that employee's `call`
points back at it.  (The converse direction is false: completion and
escalation leave stale references behind.) -/
def Inv (s : CallCenter) : Prop :=
  ∀ (cid : Nat) (c : Call), s.calls[cid]? = some c → c.state = CallState.IN_PROGRESS →
    ∃ (eid : Nat) (emp : Employee),
      c.employee = some eid ∧ s.employees[eid]? = some emp ∧ emp.call = some cid

/-- One operator, after a SUPERVISOR-rank call was submitted. -/
def exSupCall : CallCenter := run (mkCenter 1 0 0) [Event.submit Rank.SUPERVISOR]

/-- One operator holding call 0 (rank OPERATOR). -/
def exBusy : CallCenter := run (mkCenter 1 0 0) [Event.submit Rank.OPERATOR]

/-- One operator holding call 0, with a second OPERATOR-rank call 1 queued. -/
def exQueued : CallCenter :=
  run (mkCenter 1 0 0) [Event.submit Rank.OPERATOR, Event.submit Rank.OPERATOR]

/-- One operator holding call 0, after the operator escalated. -/
def exEscalated : CallCenter :=
  run (mkCenter 1 0 0) [Event.submit Rank.OPERATOR, Event.escalate 0]

/-- One operator holding call 0, after the operator completed it. -/
def exCompleted : CallCenter :=
  run (mkCenter 1 0 0) [Event.submit Rank.OPERATOR, Event.complete 0]

/-- Queue drain scenario: operator busy with call 0, call 1 queued, operator
completes call 0 (spec Scenario B expects call 1 to be drained). -/
def exDrain : CallCenter :=
  run (mkCenter 1 0 0)
    [Event.submit Rank.OPERATOR, Event.submit Rank.OPERATOR, Event.complete 0]

/-- One operator, after a DIRECTOR-rank call was submitted (the descending
fallback hands it to the operator). -/
def exDirCall : CallCenter := run (mkCenter 1 0 0) [Event.submit Rank.DIRECTOR]

/-- One director holding call 0. -/
def exDirBusy : CallCenter := run (mkCenter 0 0 1) [Event.submit Rank.DIRECTOR]

theorem updEmp_getq_ne (es : List Employee) (i j : Nat) (f : Employee → Employee)
    (h : i ≠ j) : (updEmp es i f)[j]? = es[j]? := by
  unfold updEmp
  cases h0 : es[i]?
  · rfl
  · exact List.getElem?_set_ne h

theorem updEmp_getq_self (es : List Employee) (i : Nat) (f : Employee → Employee)
    (e : Employee) (h : es[i]? = some e) : (updEmp es i f)[i]? = some (f e) := by
  unfold updEmp
  rw [h]
  exact List.getElem?_set_eq_of_lt (f e) (List.getElem?_eq_some.mp h).1

theorem updCall_getq_ne (cs : List Call) (i j : Nat) (f : Call → Call)
    (h : i ≠ j) : (updCall cs i f)[j]? = cs[j]? := by
  unfold updCall
  cases h0 : cs[i]?
  · rfl
  · exact List.getElem?_set_ne h

theorem updCall_getq_self (cs : List Call) (i : Nat) (f : Call → Call)
    (c : Call) (h : cs[i]? = some c) : (updCall cs i f)[i]? = some (f c) := by
  unfold updCall
  rw [h]
  exact List.getElem?_set_eq_of_lt (f c) (List.getElem?_eq_some.mp h).1

theorem updCall_getq_none (cs : List Call) (i : Nat) (f : Call → Call)
    (h : cs[i]? = none) : updCall cs i f = cs := by
  unfold updCall
  rw [h]

theorem empFree_some (s : CallCenter) (e : Nat) (h : empFree s e = true) :
    ∃ emp, s.employees[e]? = some emp ∧ emp.call = none := by
  unfold empFree at h
  cases h0 : s.employees[e]? with
  | none => rw [h0] at h; cases h
  | some emp => rw [h0] at h; exact ⟨emp, rfl, Option.isNone_iff_eq_none.mp h⟩

theorem dta_all_busy (s : CallCenter) (cid : Nat) (pool : List Nat)
    (h : ∀ e ∈ pool, empFree s e = false) :
    dispatchToAvailable s cid pool = (none, s) := by
  induction pool with
  | nil => rfl
  | cons e rest ih =>
    have he : empFree s e = false := h e (List.mem_cons_self e rest)
    simp only [dispatchToAvailable, he, Bool.false_eq_true, if_false]
    exact ih (fun x hx => h x (List.mem_cons_of_mem e hx))

theorem dta_first (s : CallCenter) (cid : Nat) (pre : List Nat) (e : Nat) (rest : List Nat)
    (hpre : ∀ x ∈ pre, empFree s x = false) (he : empFree s e = true) :
    dispatchToAvailable s cid (pre ++ e :: rest) = (some e, takeCall s e cid) := by
  induction pre with
  | nil => simp only [List.nil_append, dispatchToAvailable, he, if_true]
  | cons p pre1 ih =>
    have hp : empFree s p = false := hpre p (List.mem_cons_self p pre1)
    simp only [List.cons_append, dispatchToAvailable, hp, Bool.false_eq_true, if_false]
    exact ih (fun x hx => hpre x (List.mem_cons_of_mem p hx))

theorem dta_result (s : CallCenter) (cid : Nat) (pool : List Nat) :
    dispatchToAvailable s cid pool = (none, s) ∨
      ∃ e, e ∈ pool ∧ empFree s e = true ∧
        dispatchToAvailable s cid pool = (some e, takeCall s e cid) := by
  induction pool with
  | nil => left; rfl
  | cons e rest ih =>
    cases he : empFree s e with
    | true =>
      right
      exact ⟨e, List.mem_cons_self e rest, he,
        by simp only [dispatchToAvailable, he, if_true]⟩
    | false =>
      have hstep : dispatchToAvailable s cid (e :: rest) = dispatchToAvailable s cid rest := by
        simp only [dispatchToAvailable, he, Bool.false_eq_true, if_false]
      cases ih with
      | inl h1 => left; rw [hstep, h1]
      | inr h1 =>
        obtain ⟨e1, hmem, hfree, heq⟩ := h1
        right
        exact ⟨e1, List.mem_cons_of_mem e hmem, hfree, by rw [hstep, heq]⟩

theorem dta_none_state (s : CallCenter) (cid : Nat) (pool : List Nat) (t : CallCenter)
    (h : dispatchToAvailable s cid pool = (none, t)) : t = s := by
  cases dta_result s cid pool with
  | inl h1 => rw [h1] at h; exact (Prod.mk.injEq _ _ _ _ ▸ h).2.symm
  | inr h1 =>
    obtain ⟨e, _, _, heq⟩ := h1
    rw [heq] at h
    cases (Prod.mk.injEq _ _ _ _ ▸ h).1

theorem dta_append (s : CallCenter) (cid : Nat) (A B : List Nat) :
    dispatchToAvailable s cid (A ++ B) =
      match dispatchToAvailable s cid A with
      | (some e, t) => (some e, t)
      | (none, _) => dispatchToAvailable s cid B := by
  induction A with
  | nil => rfl
  | cons e rest ih =>
    cases he : empFree s e with
    | true => simp only [List.cons_append, dispatchToAvailable, he, if_true]
    | false =>
      simp only [List.cons_append, dispatchToAvailable, he, Bool.false_eq_true, if_false]
      exact ih

theorem Inv_takeCall (s : CallCenter) (eid cid : Nat) (emp : Employee)
    (hinv : Inv s) (he : s.employees[eid]? = some emp) (hfree : emp.call = none) :
    Inv (takeCall s eid cid) := by
  intro cid' c' hget hst
  simp only [takeCall] at hget ⊢
  by_cases hc : cid' = cid
  · subst hc
    cases h0 : s.calls[cid']? with
    | none =>
      rw [updCall_getq_none _ _ _ h0, h0] at hget
      cases hget
    | some c0 =>
      rw [updCall_getq_self _ _ _ _ h0] at hget
      injection hget with hc'
      refine ⟨eid, { emp with call := some cid' }, ?_, ?_, rfl⟩
      · rw [← hc']
      · exact updEmp_getq_self _ _ _ _ he
  · rw [updCall_getq_ne _ _ _ _ (fun hh => hc hh.symm)] at hget
    obtain ⟨eid0, emp0, hemp, hget0, hcall0⟩ := hinv cid' c' hget hst
    by_cases heid : eid0 = eid
    · subst heid
      rw [he] at hget0
      injection hget0 with h1
      rw [← h1, hfree] at hcall0
      cases hcall0
    · exact ⟨eid0, emp0, hemp,
        by rw [updEmp_getq_ne _ _ _ _ (fun hh => heid hh.symm)]; exact hget0, hcall0⟩

theorem Inv_dta (s : CallCenter) (cid : Nat) (pool : List Nat) (hinv : Inv s) :
    Inv (dispatchToAvailable s cid pool).2 := by
  cases dta_result s cid pool with
  | inl h => rw [h]; exact hinv
  | inr h =>
    obtain ⟨e, _, hfree, heq⟩ := h
    rw [heq]
    obtain ⟨emp, he, hcall⟩ := empFree_some s e hfree
    exact Inv_takeCall s e cid emp hinv he hcall

theorem Inv_dcbr (s : CallCenter) (cid : Nat) (hinv : Inv s) :
    Inv (dispatchCallBasedOnRank s cid).2 := by
  unfold dispatchCallBasedOnRank
  split
  · exact hinv
  · split
    · exact Inv_dta s cid s.operators hinv
    · split
      · next e t hd =>
        have h1 := Inv_dta s cid s.supervisors hinv
        rw [hd] at h1
        exact h1
      · next t hd =>
        have ht : t = s := dta_none_state _ _ _ _ hd
        subst ht
        exact Inv_dta t cid t.operators hinv
    · split
      · next e t hd =>
        have h1 := Inv_dta s cid s.directors hinv
        rw [hd] at h1
        exact h1
      · next t hd =>
        have ht : t = s := dta_none_state _ _ _ _ hd
        subst ht
        split
        · next e t2 hd2 =>
          have h1 := Inv_dta t cid t.supervisors hinv
          rw [hd2] at h1
          exact h1
        · next t2 hd2 =>
          have ht2 : t2 = t := dta_none_state _ _ _ _ hd2
          subst ht2
          exact Inv_dta t2 cid t2.operators hinv

theorem Inv_dispatchCall (s : CallCenter) (cid : Nat) (hinv : Inv s) :
    Inv (dispatchCall s cid) := by
  unfold dispatchCall
  cases hd : dispatchCallBasedOnRank s cid with
  | mk r t =>
    have ht : Inv t := by
      have h1 := Inv_dcbr s cid hinv
      rw [hd] at h1
      exact h1
    cases r with
    | some e => exact ht
    | none => exact fun cid' c' h1 h2 => ht cid' c' h1 h2

theorem Inv_newCall (s : CallCenter) (r : Rank) (hinv : Inv s) :
    Inv { s with calls := s.calls ++ [Call.mk0 r] } := by
  intro cid c hget hst
  simp only [] at hget
  rw [List.getElem?_append] at hget
  by_cases hlt : cid < s.calls.length
  · rw [if_pos hlt] at hget
    exact hinv cid c hget hst
  · rw [if_neg hlt] at hget
    cases hd : cid - s.calls.length with
    | zero =>
      rw [hd] at hget
      injection hget with h1
      rw [← h1] at hst
      cases hst
    | succ n =>
      rw [hd] at hget
      cases hget

theorem Inv_completeCall (s : CallCenter) (eid : Nat) (t : CallCenter) (hinv : Inv s)
    (h : completeCall s eid = Except.ok t) : Inv t := by
  unfold completeCall at h
  split at h
  · cases h
  · split at h
    · cases h
    · next cid hc =>
      injection h with h1
      subst h1
      intro cid' c' hget hst
      simp only [notifyCallCompleted] at hget ⊢
      by_cases hcc : cid' = cid
      · subst hcc
        cases h0 : s.calls[cid']? with
        | none =>
          rw [updCall_getq_none _ _ _ h0, h0] at hget
          cases hget
        | some c0 =>
          rw [updCall_getq_self _ _ _ _ h0] at hget
          injection hget with h2
          rw [← h2] at hst
          cases hst
      · rw [updCall_getq_ne _ _ _ _ (fun hh => hcc hh.symm)] at hget
        exact hinv cid' c' hget hst

theorem Inv_escalateWith (s : CallCenter) (eid : Nat) (emp : Employee) (newRank : Rank)
    (t : CallCenter) (hinv : Inv s) (he : s.employees[eid]? = some emp)
    (h : escalateWith s eid emp newRank = Except.ok t) : Inv t := by
  unfold escalateWith at h
  split at h
  · cases h
  · next cid hc =>
    injection h with h1
    subst h1
    intro cid' c' hget hst
    simp only [notifyCallEscalated] at hget ⊢
    by_cases hcc : cid' = cid
    · subst hcc
      cases h0 : s.calls[cid']? with
      | none =>
        rw [updCall_getq_none _ _ _ h0, h0] at hget
        cases hget
      | some c0 =>
        rw [updCall_getq_self _ _ _ _ h0] at hget
        injection hget with h2
        rw [← h2] at hst
        cases hst
    · rw [updCall_getq_ne _ _ _ _ (fun hh => hcc hh.symm)] at hget
      obtain ⟨eid0, emp0, hemp, hget0, hcall0⟩ := hinv cid' c' hget hst
      by_cases heid : eid0 = eid
      · subst heid
        rw [he] at hget0
        injection hget0 with h2
        rw [← h2, hc] at hcall0
        injection hcall0 with h3
        exact absurd h3.symm hcc
      · exact ⟨eid0, emp0, hemp,
          by rw [updEmp_getq_ne _ _ _ _ (fun hh => heid hh.symm)]; exact hget0, hcall0⟩

theorem Inv_escalateCall (s : CallCenter) (eid : Nat) (t : CallCenter) (hinv : Inv s)
    (h : escalateCall s eid = Except.ok t) : Inv t := by
  unfold escalateCall at h
  split at h
  · cases h
  · next emp he =>
    split at h
    · exact Inv_escalateWith s eid emp Rank.SUPERVISOR t hinv he h
    · exact Inv_escalateWith s eid emp Rank.DIRECTOR t hinv he h
    · cases h

theorem Inv_step (s : CallCenter) (e : Event) (hinv : Inv s) : Inv (step s e) := by
  cases e with
  | submit r =>
    simp only [step]
    exact Inv_dispatchCall _ _ (Inv_newCall s r hinv)
  | complete eid =>
    simp only [step]
    cases h : completeCall s eid with
    | ok t => exact Inv_completeCall s eid t hinv h
    | error msg => exact hinv
  | escalate eid =>
    simp only [step]
    cases h : escalateCall s eid with
    | ok t => exact Inv_escalateCall s eid t hinv h
    | error msg => exact hinv

theorem Inv_run (s : CallCenter) (evs : List Event) (hinv : Inv s) : Inv (run s evs) := by
  induction evs generalizing s with
  | nil => exact hinv
  | cons e es ih => exact ih (step s e) (Inv_step s e hinv)

theorem Inv_mkCenter (nOps nSups nDirs : Nat) : Inv (mkCenter nOps nSups nDirs) := by
  intro cid c hget _
  simp only [mkCenter] at hget
  cases hget

theorem escalateCall_eq (s : CallCenter) (eid : Nat) (emp : Employee)
    (he : s.employees[eid]? = some emp) :
    escalateCall s eid =
      match emp.rank with
      | Rank.OPERATOR => escalateWith s eid emp Rank.SUPERVISOR
      | Rank.SUPERVISOR => escalateWith s eid emp Rank.DIRECTOR
      | Rank.DIRECTOR =>
        Except.error "NotImplementedError: Directors must be able to handle any call" := by
  unfold escalateCall
  split
  · next hnone => rw [he] at hnone; cases hnone
  · next emp1 heq =>
    rw [he] at heq
    injection heq with h1
    subst h1
    rfl

theorem escalateWith_ok (s : CallCenter) (eid : Nat) (emp : Employee) (newRank : Rank)
    (cid : Nat) (hcall : emp.call = some cid) :
    escalateWith s eid emp newRank = Except.ok
      { s with
        calls := updCall s.calls cid (fun c => { c with rank := newRank, state := CallState.READY })
        employees := updEmp s.employees eid (fun e => { e with call := none }) } := by
  unfold escalateWith
  rw [hcall]
  rfl

theorem escalateWith_step (s : CallCenter) (eid cid : Nat) (emp : Employee) (c : Call)
    (newRank : Rank) (he : s.employees[eid]? = some emp) (hcall : emp.call = some cid)
    (hc : s.calls[cid]? = some c)
    (hkey : escalateCall s eid = escalateWith s eid emp newRank) :
    (escalateCall s eid).isOk = true ∧
    (step s (Event.escalate eid)).calls[cid]? =
      some { c with rank := newRank, state := CallState.READY } ∧
    (step s (Event.escalate eid)).employees[eid]? = some { emp with call := none } ∧
    (step s (Event.escalate eid)).queued_calls = s.queued_calls := by
  have key := hkey.trans (escalateWith_ok s eid emp newRank cid hcall)
  refine ⟨by rw [key]; rfl, ?_, ?_, ?_⟩
  · simp only [step]
    rw [key]
    exact updCall_getq_self _ _ _ _ hc
  · simp only [step]
    rw [key]
    exact updEmp_getq_self _ _ _ _ he
  · simp only [step]
    rw [key]

theorem dcbr_op (s : CallCenter) (cid : Nat) (c : Call)
    (h : s.calls[cid]? = some c) (hr : c.rank = Rank.OPERATOR) :
    dispatchCallBasedOnRank s cid = dispatchToAvailable s cid s.operators := by
  unfold dispatchCallBasedOnRank
  split
  · next hnone => rw [h] at hnone; cases hnone
  · next c1 heq =>
    rw [h] at heq
    injection heq with h1
    subst h1
    rw [hr]

theorem dcbr_sup (s : CallCenter) (cid : Nat) (c : Call)
    (h : s.calls[cid]? = some c) (hr : c.rank = Rank.SUPERVISOR) :
    dispatchCallBasedOnRank s cid =
      match dispatchToAvailable s cid s.supervisors with
      | (some e, s1) => (some e, s1)
      | (none, s1) => dispatchToAvailable s1 cid s1.operators := by
  unfold dispatchCallBasedOnRank
  split
  · next hnone => rw [h] at hnone; cases hnone
  · next c1 heq =>
    rw [h] at heq
    injection heq with h1
    subst h1
    rw [hr]

theorem dcbr_dir_found (s : CallCenter) (cid : Nat) (c : Call) (e : Nat)
    (h : s.calls[cid]? = some c) (hr : c.rank = Rank.DIRECTOR)
    (heq : dispatchToAvailable s cid s.directors = (some e, takeCall s e cid)) :
    dispatchCallBasedOnRank s cid = (some e, takeCall s e cid) := by
  unfold dispatchCallBasedOnRank
  split
  · next hnone => rw [h] at hnone; cases hnone
  · next c1 heq1 =>
    rw [h] at heq1
    injection heq1 with h1
    subst h1
    rw [hr, heq]

theorem dcbr_dir_inner (s : CallCenter) (cid : Nat) (c : Call)
    (h : s.calls[cid]? = some c) (hr : c.rank = Rank.DIRECTOR)
    (hnone : dispatchToAvailable s cid s.directors = (none, s)) :
    dispatchCallBasedOnRank s cid =
      match dispatchToAvailable s cid s.supervisors with
      | (some e, s2) => (some e, s2)
      | (none, s2) => dispatchToAvailable s2 cid s2.operators := by
  unfold dispatchCallBasedOnRank
  split
  · next hn => rw [h] at hn; cases hn
  · next c1 heq =>
    rw [h] at heq
    injection heq with h1
    subst h1
    rw [hr, hnone]

/-- C1 (counterexample): the claim says the routing search never assigns a
call to an employee whose tier is below the call's required tier.  With one
OPERATOR-rank employee and no supervisors, a submitted SUPERVISOR-rank call
is assigned to the operator, whose rank (0) is strictly below the call's
required rank (1). -/
theorem supervisor_call_routed_to_operator :
    empRankAt exSupCall 0 = some Rank.OPERATOR ∧
    callRankAt exSupCall 0 = some Rank.SUPERVISOR ∧
    empCallAt exSupCall 0 = some (some 0) ∧
    callEmpAt exSupCall 0 = some (some 0) ∧
    Rank.val Rank.OPERATOR < Rank.val Rank.SUPERVISOR := by
  decide

/-- C1 (amended): `_dispatch_call_based_on_rank` scans the tier pools in
DESCENDING order starting at the call's required tier (supervisors then
operators for a SUPERVISOR call; directors, supervisors, then operators for
a DIRECTOR call), equalling a single first-fit scan of the concatenated
pools; within each pool the first employee in registration order with an
empty slot is picked, and no employee is returned only when every candidate
at or BELOW the call's tier is busy. -/
theorem routing_scans_descending_pools (s : CallCenter) (cid : Nat) (c : Call)
    (h : s.calls[cid]? = some c) :
    dispatchCallBasedOnRank s cid = dispatchToAvailable s cid (searchPools s c.rank) := by
  cases hr : c.rank with
  | OPERATOR =>
    rw [dcbr_op s cid c h hr]
    rfl
  | SUPERVISOR =>
    rw [dcbr_sup s cid c h hr]
    show _ = dispatchToAvailable s cid (s.supervisors ++ s.operators)
    rw [dta_append]
    cases hd : dispatchToAvailable s cid s.supervisors with
    | mk r t =>
      cases r with
      | some e => rfl
      | none =>
        have ht : t = s := dta_none_state _ _ _ _ hd
        subst ht
        rfl
  | DIRECTOR =>
    show _ = dispatchToAvailable s cid (s.directors ++ s.supervisors ++ s.operators)
    cases dta_result s cid s.directors with
    | inr hfound =>
      obtain ⟨e, _, _, heq⟩ := hfound
      rw [dcbr_dir_found s cid c e h hr heq, List.append_assoc, dta_append, heq]
    | inl hnone =>
      have r1 : dispatchToAvailable s cid (s.directors ++ s.supervisors ++ s.operators) =
          dispatchToAvailable s cid (s.supervisors ++ s.operators) := by
        rw [List.append_assoc, dta_append, hnone]
      rw [dcbr_dir_inner s cid c h hr hnone, r1, dta_append]
      cases hd2 : dispatchToAvailable s cid s.supervisors with
      | mk r2 t2 =>
        cases r2 with
        | some e => rfl
        | none =>
          have ht2 : t2 = s := dta_none_state _ _ _ _ hd2
          subst ht2
          rfl

/-- C1 (witness for the amended theorem) at a concrete center: one operator
holding call 0 and the OPERATOR-rank call 1 queued. -/
theorem routing_scans_descending_pools_witness :
    dispatchCallBasedOnRank exQueued 1 =
      dispatchToAvailable exQueued 1 (searchPools exQueued Rank.OPERATOR) :=
  routing_scans_descending_pools exQueued 1 ⟨CallState.READY, Rank.OPERATOR, none⟩ rfl

/-- C2: the claim says the completion hook drains the longest-waiting
routable backlog call.  Failing input: one operator busy with call 0,
OPERATOR-rank call 1 queued, operator completes call 0.  The code's
`notify_call_completed` is `pass`: call 1 stays queued and READY, and the
operator's slot still holds the completed call, so nothing was drained. -/
theorem completion_hook_drains_nothing :
    exDrain.queued_calls = [1] ∧
    callStateAt exDrain 1 = some CallState.READY ∧
    empCallAt exDrain 0 = some (some 0) := by
  decide

/-- C3: the claim says an escalated call is re-routed or appended to the
backlog, never left in neither.  Failing input: one operator holding call 0
escalates.  The code's `notify_call_escalated` is `pass`: afterwards the
call is READY, held by no employee, and absent from the backlog — stranded. -/
theorem escalation_hook_strands_call :
    callStateAt exEscalated 0 = some CallState.READY ∧
    exEscalated.queued_calls = [] ∧
    empCallAt exEscalated 0 = some none := by
  decide

/-- C4 (counterexample): the claim's "Assigned iff assignedEmployee set"
fails: after an operator completes call 0, the call's state is COMPLETE yet
its `employee` back-reference is still set (`complete_call` clears
neither pointer). -/
theorem completed_call_keeps_assigned_employee :
    callStateAt exCompleted 0 = some CallState.COMPLETE ∧
    callEmpAt exCompleted 0 = some (some 0) := by
  decide

/-- C4 (amended): only the forward direction survives, and it holds at every
observable point: in any state reachable by public operations from a fresh
center, every IN_PROGRESS call has its `employee` reference set and that
employee's `call` slot points back at it.  The converse is false: completion
and escalation leave stale `employee` back-references on non-Assigned calls. -/
theorem in_progress_call_points_back (nOps nSups nDirs : Nat) (evs : List Event)
    (cid : Nat) (c : Call)
    (hget : (run (mkCenter nOps nSups nDirs) evs).calls[cid]? = some c)
    (hst : c.state = CallState.IN_PROGRESS) :
    ∃ (eid : Nat) (emp : Employee), c.employee = some eid ∧
      (run (mkCenter nOps nSups nDirs) evs).employees[eid]? = some emp ∧
      emp.call = some cid :=
  Inv_run (mkCenter nOps nSups nDirs) evs (Inv_mkCenter nOps nSups nDirs) cid c hget hst

/-- C4 (witness): the invariant instantiated after one submission to a
one-operator center. -/
theorem in_progress_call_points_back_witness :
    ∃ (eid : Nat) (emp : Employee),
      (⟨CallState.IN_PROGRESS, Rank.OPERATOR, some 0⟩ : Call).employee = some eid ∧
      (run (mkCenter 1 0 0) [Event.submit Rank.OPERATOR]).employees[eid]? = some emp ∧
      emp.call = some 0 :=
  in_progress_call_points_back 1 0 0 [Event.submit Rank.OPERATOR] 0
    ⟨CallState.IN_PROGRESS, Rank.OPERATOR, some 0⟩ (by decide) rfl

/-- C5 (counterexample): the claim says `acceptCall` on a busy employee (or
for a non-Pending call) fails with InvalidState instead of assigning.  The
code's `take_call` checks nothing: the busy operator (holding call 0)
accepts call 1, the slot is overwritten, and the old call is left
IN_PROGRESS — no failure of any kind occurs. -/
theorem busy_employee_accepts_second_call :
    empCallAt exQueued 0 = some (some 0) ∧
    empCallAt (takeCall exQueued 0 1) 0 = some (some 1) ∧
    callStateAt (takeCall exQueued 0 1) 1 = some CallState.IN_PROGRESS ∧
    callStateAt (takeCall exQueued 0 1) 0 = some CallState.IN_PROGRESS := by
  decide

/-- C5 (amended): `take_call` performs no precondition check and cannot
fail: whatever the employee's current slot or the call's current state, it
unconditionally installs the call in the slot and marks it IN_PROGRESS with
the back-reference set.  No-double-booking holds only because the
dispatcher's scan selects employees with empty slots. -/
theorem take_call_always_assigns (s : CallCenter) (eid cid : Nat) (emp : Employee) (c : Call)
    (he : s.employees[eid]? = some emp) (hc : s.calls[cid]? = some c) :
    (takeCall s eid cid).employees[eid]? = some { emp with call := some cid } ∧
    (takeCall s eid cid).calls[cid]? =
      some { c with employee := some eid, state := CallState.IN_PROGRESS } :=
  ⟨updEmp_getq_self _ _ _ _ he, updCall_getq_self _ _ _ _ hc⟩

/-- C5 (witness): the busy operator of `exQueued` silently takes call 1. -/
theorem take_call_always_assigns_witness :
    (takeCall exQueued 0 1).employees[0]? = some ⟨0, "op", Rank.OPERATOR, some 1⟩ ∧
    (takeCall exQueued 0 1).calls[1]? =
      some ⟨CallState.IN_PROGRESS, Rank.OPERATOR, some 0⟩ :=
  take_call_always_assigns exQueued 0 1 ⟨0, "op", Rank.OPERATOR, some 0⟩
    ⟨CallState.READY, Rank.OPERATOR, none⟩ rfl rfl

/-- C6 (counterexample): the claim says escalation clears BOTH the call's
`assignedEmployee` back-reference and the employee's slot.  After the
operator escalates call 0, the employee slot is cleared and the call is
READY at rank SUPERVISOR, but `call.employee` still points at employee 0:
`_escalate_call` never clears it. -/
theorem escalation_leaves_back_reference :
    callEmpAt exEscalated 0 = some (some 0) ∧
    empCallAt exEscalated 0 = some none ∧
    callRankAt exEscalated 0 = some Rank.SUPERVISOR ∧
    callStateAt exEscalated 0 = some CallState.READY := by
  decide

/-- C6 (amended): for a non-DIRECTOR employee holding a call, escalation
succeeds, raises the call's rank to the next tier above the employee's own
tier, sets the call READY, clears the employee's slot, leaves the backlog
untouched, and invokes the (no-op) escalation hook — but the call's
`employee` back-reference is left unchanged (stale), not cleared. -/
theorem escalate_updates_call_and_slot (s : CallCenter) (eid cid : Nat) (emp : Employee)
    (c : Call) (he : s.employees[eid]? = some emp) (hr : emp.rank ≠ Rank.DIRECTOR)
    (hcall : emp.call = some cid) (hc : s.calls[cid]? = some c) :
    (escalateCall s eid).isOk = true ∧
    (step s (Event.escalate eid)).calls[cid]? =
      some { c with rank := nextRank emp.rank, state := CallState.READY } ∧
    (step s (Event.escalate eid)).employees[eid]? = some { emp with call := none } ∧
    (step s (Event.escalate eid)).queued_calls = s.queued_calls := by
  have hkey2 : escalateCall s eid = escalateWith s eid emp (nextRank emp.rank) := by
    have hkey := escalateCall_eq s eid emp he
    cases hrk : emp.rank with
    | DIRECTOR => exact absurd hrk hr
    | OPERATOR => rw [hrk] at hkey; exact hkey
    | SUPERVISOR => rw [hrk] at hkey; exact hkey
  exact escalateWith_step s eid cid emp c (nextRank emp.rank) he hcall hc hkey2

/-- C6 (witness): the operator of `exBusy` escalates call 0; note the
resulting call record still carries `employee := some 0`. -/
theorem escalate_updates_call_and_slot_witness :
    (escalateCall exBusy 0).isOk = true ∧
    (step exBusy (Event.escalate 0)).calls[0]? =
      some ⟨CallState.READY, Rank.SUPERVISOR, some 0⟩ ∧
    (step exBusy (Event.escalate 0)).employees[0]? =
      some ⟨0, "op", Rank.OPERATOR, none⟩ ∧
    (step exBusy (Event.escalate 0)).queued_calls = exBusy.queued_calls :=
  escalate_updates_call_and_slot exBusy 0 0 ⟨0, "op", Rank.OPERATOR, some 0⟩
    ⟨CallState.IN_PROGRESS, Rank.OPERATOR, some 0⟩ rfl (by decide) rfl rfl

/-- C7 (counterexample): the claim says escalation never decreases a call's
required tier.  Reachable refutation: with one operator only, a DIRECTOR-rank
call is submitted and (by the descending fallback) lands on the operator;
the operator escalates, which sets the call's rank to SUPERVISOR — a strict
DECREASE from DIRECTOR. -/
theorem escalation_can_decrease_call_rank :
    callRankAt exDirCall 0 = some Rank.DIRECTOR ∧
    callRankAt (step exDirCall (Event.escalate 0)) 0 = some Rank.SUPERVISOR ∧
    Rank.val Rank.SUPERVISOR < Rank.val Rank.DIRECTOR := by
  decide

/-- C7 (amended): a successful escalation sets the call's rank to exactly
one tier step above the ESCALATING EMPLOYEE's rank, irrespective of the
call's previous rank; since the routing may place a call on an employee
below its tier, this can decrease the call's rank. -/
theorem escalation_one_step_above_employee_rank (s : CallCenter) (eid cid : Nat)
    (emp : Employee) (c : Call) (he : s.employees[eid]? = some emp)
    (hr : emp.rank ≠ Rank.DIRECTOR) (hcall : emp.call = some cid)
    (hc : s.calls[cid]? = some c) :
    (escalateCall s eid).isOk = true ∧
    callRankAt (step s (Event.escalate eid)) cid = some (nextRank emp.rank) ∧
    Rank.val (nextRank emp.rank) = Rank.val emp.rank + 1 := by
  have hkey2 : escalateCall s eid = escalateWith s eid emp (nextRank emp.rank) := by
    have hkey := escalateCall_eq s eid emp he
    cases hrk : emp.rank with
    | DIRECTOR => exact absurd hrk hr
    | OPERATOR => rw [hrk] at hkey; exact hkey
    | SUPERVISOR => rw [hrk] at hkey; exact hkey
  obtain ⟨h1, h2, h3, h4⟩ :=
    escalateWith_step s eid cid emp c (nextRank emp.rank) he hcall hc hkey2
  have hv : Rank.val (nextRank emp.rank) = Rank.val emp.rank + 1 := by
    cases hrk : emp.rank with
    | DIRECTOR => exact absurd hrk hr
    | OPERATOR => rfl
    | SUPERVISOR => rfl
  refine ⟨h1, ?_, hv⟩
  unfold callRankAt
  rw [h2]
  rfl

/-- C7 (witness): the operator of `exDirCall` holds a DIRECTOR-rank call and
escalates it to `nextRank OPERATOR = SUPERVISOR`. -/
theorem escalation_one_step_above_employee_rank_witness :
    (escalateCall exDirCall 0).isOk = true ∧
    callRankAt (step exDirCall (Event.escalate 0)) 0 = some (nextRank Rank.OPERATOR) ∧
    Rank.val (nextRank Rank.OPERATOR) = Rank.val Rank.OPERATOR + 1 :=
  escalation_one_step_above_employee_rank exDirCall 0 0 ⟨0, "op", Rank.OPERATOR, some 0⟩
    ⟨CallState.IN_PROGRESS, Rank.DIRECTOR, some 0⟩ rfl (by decide) rfl rfl

/-- C8: the claim says `completeCall` clears the employee's `currentCall`
slot.  Failing input: the single operator holding call 0 completes it.  The
code marks the call COMPLETE and invokes the hook but never clears
`self.call`, so the slot still holds the completed call (the employee can
never be selected again); with no current call, `complete_call` fails by
dereferencing `None` without mutating anything. -/
theorem complete_call_leaves_slot_occupied :
    callStateAt exCompleted 0 = some CallState.COMPLETE ∧
    empCallAt exCompleted 0 = some (some 0) ∧
    completeCall (mkCenter 1 0 0) 0 =
      Except.error "AttributeError: NoneType has no attribute state" :=
  ⟨by decide, by decide, rfl⟩

/-- C9 (confirmed): for every DIRECTOR (top-tier) employee holding a call,
`escalate_call` raises `NotImplementedError` (the code's rendering of
EscalationNotSupported) before touching any state, so the public operation
leaves the entire center unchanged: the call stays Assigned to the same
director with the same tier. -/
theorem director_escalate_call_fails (s : CallCenter) (eid cid : Nat) (emp : Employee)
    (he : s.employees[eid]? = some emp) (hr : emp.rank = Rank.DIRECTOR)
    (_hcall : emp.call = some cid) :
    escalateCall s eid =
      Except.error "NotImplementedError: Directors must be able to handle any call" ∧
    step s (Event.escalate eid) = s := by
  have hkey := escalateCall_eq s eid emp he
  rw [hr] at hkey
  have h1 : escalateCall s eid =
      Except.error "NotImplementedError: Directors must be able to handle any call" := hkey
  refine ⟨h1, ?_⟩
  simp only [step]
  rw [h1]

/-- C9 (witness): the single director of `exDirBusy` holds call 0. -/
theorem director_escalate_call_fails_witness :
    escalateCall exDirBusy 0 =
      Except.error "NotImplementedError: Directors must be able to handle any call" ∧
    step exDirBusy (Event.escalate 0) = exDirBusy :=
  director_escalate_call_fails exDirBusy 0 0 ⟨0, "dir", Rank.DIRECTOR, some 0⟩ rfl rfl rfl

/-- C10 (confirmed): `_dispatch_to_available` is a first-fit scan that binds
only to an employee with an empty slot: if every employee in the pool is
busy it returns `None` with the state unchanged; if the pool splits as
`pre ++ e :: rest` with all of `pre` busy and `e` free, it assigns the call
to `e` via `take_call` and returns `e`; and every result is one of those two
shapes. -/
theorem dispatch_to_available_first_fit (s : CallCenter) (cid : Nat) (pool : List Nat) :
    ((∀ e ∈ pool, empFree s e = false) → dispatchToAvailable s cid pool = (none, s)) ∧
    (∀ pre e rest, pool = pre ++ e :: rest → (∀ x ∈ pre, empFree s x = false) →
      empFree s e = true → dispatchToAvailable s cid pool = (some e, takeCall s e cid)) ∧
    (∀ r t, dispatchToAvailable s cid pool = (r, t) →
      (r = none ∧ t = s) ∨ ∃ e, r = some e ∧ empFree s e = true ∧ t = takeCall s e cid) := by
  refine ⟨dta_all_busy s cid pool, ?_, ?_⟩
  · intro pre e rest hp hpre he
    subst hp
    exact dta_first s cid pre e rest hpre he
  · intro r t h
    cases dta_result s cid pool with
    | inl h1 =>
      have h2 := h1.symm.trans h
      injection h2 with ha hb
      exact Or.inl ⟨ha.symm, hb.symm⟩
    | inr h1 =>
      obtain ⟨e, _, hfree, heq⟩ := h1
      have h2 := heq.symm.trans h
      injection h2 with ha hb
      exact Or.inr ⟨e, ha.symm, hfree, hb.symm⟩

/-- C10 (witness): both shapes at concrete inputs — the busy pool of
`exQueued` yields no employee and no state change; the fresh center assigns
to its first (free) operator. -/
theorem dispatch_to_available_first_fit_witness :
    dispatchToAvailable exQueued 1 [0] = (none, exQueued) ∧
    dispatchToAvailable (mkCenter 1 0 0) 0 [0] =
      (some 0, takeCall (mkCenter 1 0 0) 0 0) :=
  ⟨(dispatch_to_available_first_fit exQueued 1 [0]).1 (by decide),
   (dispatch_to_available_first_fit (mkCenter 1 0 0) 0 [0]).2.1 [] 0 [] rfl
     (by simp) (by decide)⟩

end CallCenterModel
